import Mathlib

/-!
# Verification of the ns3-nordic trace-visualization core

Shallow embedding of the trace-correlation and playback logic of the four
Python scripts under `engine_sim` (`visualize_packet_flow.py`,
`visualize_animated.py`, `visualize_trace.py`, `tools/phase3_visualizer.py`),
together with proofs and refutations of the spec's claims about them.

Modelling conventions:
* Trace rows are the typed union `Ev`.  A field that every script reads
  unconditionally (`int(row[...])` with no `pd.notna` guard) is modelled as
  present; a field the scripts guard with `pd.notna` / `dropna` is an
  `Option`.  Times (`time_ms`) are modelled as `ℚ`.
* `pandas.sort_values` is modelled by `List.insertionSort`, `groupby` keys and
  `sorted(set(...))` by sort-then-`dedup`; the claims proved below do not
  depend on tie-breaking among rows with equal keys.
* A `networkx.Graph` is a node list plus an undirected, deduplicated edge
  list; `add_edge` inserts both endpoints, and a self-loop is representable,
  exactly as in networkx.
-/

namespace NordicViz

attribute [local semireducible] Rat.add Rat.sub Rat.mul Rat.inv Rat.ofScientific

abbrev Time := ℚ

/-- A row of the simulation trace CSV, one constructor per `event` kind.
For `stats` the columns are repurposed per the documented schema quirk
(`sender_id` is the node id, `receiver_id` the sent count, `originator_id`
the received count, `ttl` the forwarded count, `path_length` the dropped
count). -/
inductive Ev where
  | topology (senderId receiverId : Int)
  | send (time : Time) (senderId : Int) (originatorId ttl pathLength : Option Int)
  | recv (time : Time) (receiverId : Int) (originatorId ttl pathLength : Option Int)
  | stats (nodeId messagesSent messagesReceived messagesForwarded messagesDropped : Int)
  deriving DecidableEq, Repr

/-- A SEND row (`df[df["event"] == "SEND"]`). -/
structure SendRow where
  time : Time
  sender_id : Int
  originator_id : Option Int
  ttl : Option Int
  path_length : Option Int
  deriving DecidableEq, Repr

/-- A RECV row (`df[df["event"] == "RECV"]`). -/
structure RecvRow where
  time : Time
  receiver_id : Int
  originator_id : Option Int
  ttl : Option Int
  path_length : Option Int
  deriving DecidableEq, Repr

def evSendRow : Ev → Option SendRow
  | .send t s o tl pl => some ⟨t, s, o, tl, pl⟩
  | _ => none

def evRecvRow : Ev → Option RecvRow
  | .recv t r o tl pl => some ⟨t, r, o, tl, pl⟩
  | _ => none

/-- The rows `df[df["event"] == "SEND"]` as typed rows. -/
def sendsOf (tr : List Ev) : List SendRow := tr.filterMap evSendRow

/-- The rows `df[df["event"] == "RECV"]` as typed rows. -/
def recvsOf (tr : List Ev) : List RecvRow := tr.filterMap evRecvRow

/-! ## The networkx graph model -/

/-- A `networkx.Graph`: node list (insertion order) and undirected edge list.
Edges are deduplicated on insertion, matching networkx adjacency semantics. -/
structure Graph where
  nodes : List Int
  edges : List (Int × Int)
  deriving DecidableEq, Repr

def Graph.empty : Graph := ⟨[], []⟩

def Graph.addNode (g : Graph) (a : Int) : Graph :=
  if a ∈ g.nodes then g else { g with nodes := g.nodes ++ [a] }

/-- Models `G.has_edge(a, b)` — symmetric lookup in the undirected edge list. -/
def Graph.hasEdge (g : Graph) (a b : Int) : Bool :=
  g.edges.any fun e => decide ((e.1 = a ∧ e.2 = b) ∨ (e.1 = b ∧ e.2 = a))

/-- Models `G.add_edge(a, b)`: inserts both endpoints as nodes, then the edge unless
it is already present (in either orientation). -/
def Graph.addEdge (g : Graph) (a b : Int) : Graph :=
  let g1 := (g.addNode a).addNode b
  if g1.hasEdge a b then g1 else { g1 with edges := g1.edges ++ [(a, b)] }

/-- Models `G.neighbors(a)`: endpoints opposite `a` over incident edges, in edge
insertion order; a self-loop contributes `a` once, as in networkx. -/
def Graph.neighbors (g : Graph) (a : Int) : List Int :=
  g.edges.filterMap fun e =>
    if e.1 = a then some e.2 else if e.2 = a then some e.1 else none

/-- An edge whose two endpoints coincide. -/
def Graph.hasSelfLoop (g : Graph) : Bool :=
  g.edges.any fun e => decide (e.1 = e.2)

/-- The first loop shared by every topology builder: one `add_edge` per
TOPOLOGY row. -/
def topoEdgesGraph (tr : List Ev) : Graph :=
  tr.foldl
    (fun g e => match e with
      | .topology a b => g.addEdge a b
      | _ => g)
    Graph.empty

/-- Shared embedding of `PacketFlowAnimator._build_topology`
(visualize_packet_flow.py:105), `AnimatedVisualizer._build_topology`
(visualize_animated.py:149) and `extract_topology` (visualize_trace.py:36),
whose bodies are identical: one edge per TOPOLOGY row, then every SEND row's
`sender_id` added as a node. -/
def buildTopologySendersOnly (tr : List Ev) : Graph :=
  (sendsOf tr).foldl (fun g s => g.addNode s.sender_id) (topoEdgesGraph tr)

/-- The `sender_id` CSV column of a row, `None` when empty for that kind
(STATS rows repurpose it as the node id). -/
def evSenderCol : Ev → Option Int
  | .topology a _ => some a
  | .send _ s _ _ _ => some s
  | .recv _ _ _ _ _ => none
  | .stats n _ _ _ _ => some n

/-- The `receiver_id` CSV column of a row (STATS rows repurpose it as the
sent count). -/
def evReceiverCol : Ev → Option Int
  | .topology _ b => some b
  | .send _ _ _ _ _ => none
  | .recv _ r _ _ _ => some r
  | .stats _ snt _ _ _ => some snt

/-- The `originator_id` CSV column of a row (STATS rows repurpose it as the
received count). -/
def evOriginatorCol : Ev → Option Int
  | .topology _ _ => none
  | .send _ _ o _ _ => o
  | .recv _ _ o _ _ => o
  | .stats _ _ rcv _ _ => some rcv

/-- Embeds `extract_topology` of phase3_visualizer.py:122: edges from TOPOLOGY rows,
then every non-null value of the `sender_id`, `receiver_id` and
`originator_id` columns of the whole frame added as a node (defensive). -/
def p3ExtractTopology (tr : List Ev) : Graph :=
  (tr.filterMap evSenderCol ++ tr.filterMap evReceiverCol
      ++ tr.filterMap evOriginatorCol).foldl Graph.addNode (topoEdgesGraph tr)

/-! ## The packet-flow correlator (visualize_packet_flow.py) -/

def MAX_PROPAGATION_DELAY_MS : Time := 5

/-- A packet moving from one node to another
(dataclass `Transmission`, visualize_packet_flow.py:42). -/
structure Transmission where
  send_time : Time
  arrival_time : Time
  sender_id : Int
  receiver_id : Int
  originator_id : Int
  deriving DecidableEq, Repr

/-- A RECV row that survived
`.dropna(subset=["receiver_id", "originator_id", "time_ms"])`
(visualize_packet_flow.py:138): its originator is known. -/
structure CorrRecv where
  time : Time
  receiver_id : Int
  originator_id : Int
  deriving DecidableEq, Repr

def corrRecvs (rs : List RecvRow) : List CorrRecv :=
  rs.filterMap fun r => r.originator_id.map fun o => ⟨r.time, r.receiver_id, o⟩

/-- The dict `recv_lookup`: the `defaultdict(deque)` keyed by
`(receiver_id, originator_id)`, modelled as an association list. -/
abbrev Lookup := List ((Int × Int) × List CorrRecv)

def lookupGet (lk : Lookup) (k : Int × Int) : Option (List CorrRecv) :=
  (lk.find? fun kv => decide (kv.1 = k)).map (·.2)

def lookupSet (lk : Lookup) (k : Int × Int) (q : List CorrRecv) : Lookup :=
  lk.map fun kv => if kv.1 = k then (kv.1, q) else kv

def lookupAppend (lk : Lookup) (k : Int × Int) (r : CorrRecv) : Lookup :=
  match lookupGet lk k with
  | none => lk ++ [(k, [r])]
  | some q => lookupSet lk k (q ++ [r])

/-- The loop filling `recv_lookup` (visualize_packet_flow.py:145). -/
def buildLookup (rs : List CorrRecv) : Lookup :=
  rs.foldl (fun lk r => lookupAppend lk (r.receiver_id, r.originator_id) r) []

/-- The loop `while queue and queue[0]["time_ms"] <= send_time: queue.popleft()`. -/
def dropStale (t : Time) : List CorrRecv → List CorrRecv
  | [] => []
  | r :: rest => if r.time ≤ t then dropStale t rest else r :: rest

/-- Embeds `PacketFlowAnimator._match_recv_event` (visualize_packet_flow.py:175):
returns the matched RECV row (if any) together with the updated lookup. -/
def matchRecvEvent (lk : Lookup) (receiver origin : Int) (sendTime : Time) :
    Option CorrRecv × Lookup :=
  match lookupGet lk (receiver, origin) with
  | none => (none, lk)
  | some q =>
    if q = [] then (none, lk)
    else
      match dropStale sendTime q with
      | [] => (none, lookupSet lk (receiver, origin) [])
      | r :: rest =>
        if r.time - sendTime ≤ MAX_PROPAGATION_DELAY_MS then
          (some r, lookupSet lk (receiver, origin) rest)
        else
          (none, lookupSet lk (receiver, origin) (r :: rest))

/-- The inner loop of `_build_transmissions` over `self.graph.neighbors(sender)`
(visualize_packet_flow.py:157): threads the lookup, appending one
`Transmission` per matched neighbor. -/
def processSend (g : Graph) (s : SendRow) (p : List Transmission × Lookup) :
    List Transmission × Lookup :=
  let sender := s.sender_id
  let origin := s.originator_id.getD sender
  (g.neighbors sender).foldl
    (fun p n =>
      match matchRecvEvent p.2 n origin s.time with
      | (none, lk) => (p.1, lk)
      | (some r, lk) => (p.1 ++ [⟨s.time, r.time, sender, n, origin⟩], lk))
    p

/-- Embeds `PacketFlowAnimator._build_transmissions` (visualize_packet_flow.py:135),
flattened: the Python dict groups the same transmissions by `send_time`. -/
def buildTransmissions (g : Graph) (sends : List SendRow) (recvs : List RecvRow) :
    List Transmission :=
  ((List.insertionSort (fun a b : SendRow => a.time ≤ b.time) sends).foldl
    (fun p s => processSend g s p)
    ([], buildLookup
      (List.insertionSort (fun a b : CorrRecv => a.time ≤ b.time) (corrRecvs recvs)))).1

/-- The correlator as run by `PacketFlowAnimator.__init__` on a trace. -/
def pfRun (tr : List Ev) : List Transmission :=
  buildTransmissions (buildTopologySendersOnly tr) (sendsOf tr) (recvsOf tr)

/-! ## The timeline builder (`PacketFlowAnimator._group_events`) -/

/-- The `phase` string field of a grouped event (`"SEND"` / `"RECV"`). -/
inductive Phase where
  | send
  | recv
  deriving DecidableEq, Repr

/-- One element of the `grouped_events` list built by
`PacketFlowAnimator._group_events` (visualize_packet_flow.py:194). -/
structure GroupedEvent where
  time_ms : Time
  senders : List Int
  receivers : List Int
  transmissions : List Transmission
  phase : Phase
  recv_details : List String
  deriving DecidableEq, Repr

/-- Sorted unique values: models both the (sorted, NaN-free) key sequence of a
pandas `groupby` and Python's `sorted(set(...))`. -/
def dedupSorted (l : List Time) : List Time :=
  (List.insertionSort (fun a b : Time => a ≤ b) l).dedup

def sortedIntsAsc (l : List Int) : List Int :=
  List.insertionSort (fun a b : Int => a ≤ b) l

/-- Embeds `PacketFlowAnimator._group_events` (visualize_packet_flow.py:194): one
entry per distinct SEND timestamp, then one per distinct RECV timestamp,
finally sorted by `time_ms` (Python's stable sort). -/
instance : IsTotal GroupedEvent fun a b => a.time_ms ≤ b.time_ms :=
  ⟨fun a b => le_total a.time_ms b.time_ms⟩

instance : IsTrans GroupedEvent fun a b => a.time_ms ≤ b.time_ms :=
  ⟨fun _ _ _ h1 h2 => le_trans h1 h2⟩

/-- The first loop of `_group_events`: the `send_df.groupby("time_ms")`
entries, one per distinct SEND timestamp (`phase = "SEND"`). -/
def sendEntriesOf (sends : List SendRow) (txs : List Transmission) :
    List GroupedEvent :=
  (dedupSorted (sends.map (·.time))).map fun t =>
    { time_ms := t
      senders := sortedIntsAsc ((sends.filter fun s => decide (s.time = t)).map (·.sender_id))
      receivers := []
      transmissions := txs.filter fun tx => decide (tx.send_time = t)
      phase := Phase.send
      recv_details := [] }

/-- The second loop of `_group_events`: the `recv_df.groupby("time_ms")`
entries, one per distinct RECV timestamp (`phase = "RECV"`). -/
def recvEntriesOf (recvs : List RecvRow) : List GroupedEvent :=
  (dedupSorted (recvs.map (·.time))).map fun t =>
    { time_ms := t
      senders := []
      receivers := sortedIntsAsc ((recvs.filter fun r => decide (r.time = t)).map (·.receiver_id))
      transmissions := []
      phase := Phase.recv
      recv_details := (recvs.filter fun r => decide (r.time = t)).filterMap fun r =>
        r.originator_id.map fun o =>
          toString r.receiver_id ++ " ← origin " ++ toString o }

def groupEvents (sends : List SendRow) (recvs : List RecvRow)
    (txs : List Transmission) : List GroupedEvent :=
  List.insertionSort (fun a b : GroupedEvent => a.time_ms ≤ b.time_ms)
    (sendEntriesOf sends txs ++ recvEntriesOf recvs)

/-- The list `self.events` as built by `PacketFlowAnimator.__init__`. -/
def pfGroupEvents (tr : List Ev) : List GroupedEvent :=
  groupEvents (sendsOf tr) (recvsOf tr) (pfRun tr)

/-! ## The animated visualizer (visualize_animated.py) -/

/-- A packet in flight (dataclass `PacketAnimation`, visualize_animated.py:68). -/
structure PacketAnimation where
  sender_id : Int
  receiver_id : Int
  originator_id : Int
  start_time : Time
  end_time : Time
  ttl : Int
  path_length : Int
  deriving DecidableEq, Repr

/-- Embeds `AnimatedVisualizer._extract_packet_animations` (visualize_animated.py:210):
for each SEND row, the RECV rows with `time_ms == send_time + 1`, equal
originator and equal ttl (send defaults: originator ← sender, ttl ← 6,
path_length ← 1) on a topology-adjacent receiver become animations. -/
def extractPacketAnimations (g : Graph) (sends : List SendRow)
    (recvs : List RecvRow) : List PacketAnimation :=
  sends.foldl
    (fun acc s =>
      let sender := s.sender_id
      let origin := s.originator_id.getD sender
      let ttlEff := s.ttl.getD 6
      let pathLen := s.path_length.getD 1
      let matching := recvs.filter fun r =>
        decide (r.time = s.time + 1 ∧ r.originator_id = some origin ∧ r.ttl = some ttlEff)
      matching.foldl
        (fun acc2 r =>
          if g.hasEdge sender r.receiver_id then
            acc2 ++ [⟨sender, r.receiver_id, origin, s.time, s.time + 1, ttlEff, pathLen⟩]
          else acc2)
        acc)
    []

/-- Minimum of a list with a default for the empty case (pandas `.min()`). -/
def listMinD (l : List Time) (d : Time) : Time :=
  match l with
  | [] => d
  | t :: rest => rest.foldl min t

/-- Maximum of a list with a default for the empty case (pandas `.max()`). -/
def listMaxD (l : List Time) (d : Time) : Time :=
  match l with
  | [] => d
  | t :: rest => rest.foldl max t

/-- The list `self.sorted_event_times` (visualize_animated.py:114): the sorted list of
the distinct `time_ms` values of the SEND and RECV rows. -/
def avSortedEventTimes (sends : List SendRow) (recvs : List RecvRow) : List Time :=
  dedupSorted (sends.map (·.time) ++ recvs.map (·.time))

/-- The field `self.min_time` (visualize_animated.py:119): minimum SEND/RECV time, 0 on
an empty trace. -/
def avMinTime (sends : List SendRow) (recvs : List RecvRow) : Time :=
  listMinD (sends.map (·.time) ++ recvs.map (·.time)) 0

/-- The mutable playback fields of `AnimatedVisualizer`. -/
structure AVState where
  current_event_index : Nat
  current_time : Time
  playing : Bool
  deriving DecidableEq, Repr

/-- The playback fields as set by `AnimatedVisualizer.__init__`
(visualize_animated.py:115,123-124). -/
def avInitState (sends : List SendRow) (recvs : List RecvRow) : AVState :=
  { current_event_index := 0
    current_time := avMinTime sends recvs
    playing := false }

/-- Embeds `AnimatedVisualizer._toggle_play` (visualize_animated.py:577):
unconditionally flips `self.playing`. -/
def togglePlay (st : AVState) : AVState :=
  { st with playing := !st.playing }

/-- Embeds `AnimatedVisualizer._next_event` (visualize_animated.py:655): advance the
event cursor, wrapping from the last event time back to the first. -/
def nextEvent (times : List Time) (minTime : Time) (st : AVState) : AVState :=
  if st.current_event_index < times.length - 1 then
    { st with
      current_event_index := st.current_event_index + 1
      current_time := times.getD (st.current_event_index + 1) 0 }
  else
    { st with
      current_event_index := 0
      current_time := times.headD minTime }

/-! ## The phase3 playback controller (tools/phase3_visualizer.py) -/

/-- The `state` dict of `build_animation` (phase3_visualizer.py:369). -/
structure P3State where
  running : Bool
  current : Time
  last : Time
  deriving DecidableEq, Repr

/-- Embeds `next_timestamp` (phase3_visualizer.py:510): the `for`-loop with early
return — the first logged timestamp strictly after `afterTime`, else
`min_time` (wrap). -/
def nextTimestamp (timestamps : List Time) (minTime afterTime : Time) : Time :=
  match timestamps with
  | [] => minTime
  | t :: rest => if afterTime < t then t else nextTimestamp rest minTime afterTime

/-- The phase3 speed step: `dt = base_dt * max(0.1, float(speed_slider.val))`. -/
def p3Dt (baseDt speedVal : Time) : Time :=
  baseDt * max (1 / 10) speedVal

/-- Embeds `advance_frame` (phase3_visualizer.py:517): advance the cursor by `dt`,
clamped to the next logged timestamp, wrapping past `max_time` by carrying
the overshoot onto `min_time`. -/
def advanceFrame (timestamps : List Time) (minTime maxTime baseDt speedVal : Time)
    (st : P3State) : P3State :=
  if st.running = false then st
  else
    let desired := st.current + p3Dt baseDt speedVal
    let nxt := nextTimestamp timestamps minTime st.current
    let newTime := if st.current < nxt ∧ nxt ≤ desired then nxt else desired
    if maxTime < newTime then
      { running := st.running, last := maxTime, current := minTime + (newTime - maxTime) }
    else
      { running := st.running, last := st.current, current := newTime }

/-- The list `sorted(events["time_ms"].unique())` in `build_animation`
(phase3_visualizer.py:303). -/
def p3Timestamps (sends : List SendRow) (recvs : List RecvRow) : List Time :=
  dedupSorted (sends.map (·.time) ++ recvs.map (·.time))

/-- Result of `build_animation`: either the early-return "No SEND/RECV events
found" figure with no playback state, or the animation with its timeline
parameters and initial state. -/
inductive BuildAnimResult where
  | emptyFigure
  | animation (timestamps : List Time) (minTime maxTime baseDt : Time) (st : P3State)
  deriving DecidableEq, Repr

/-- Embeds `build_animation` (phase3_visualizer.py:292): returns the bare figure when
there are no SEND/RECV rows or the graph has no nodes; otherwise computes the
timeline parameters and the initial (running) state. -/
def buildAnimation (g : Graph) (sends : List SendRow) (recvs : List RecvRow) :
    BuildAnimResult :=
  if (sends.isEmpty && recvs.isEmpty) || g.nodes.isEmpty then
    .emptyFigure
  else
    let timestamps := p3Timestamps sends recvs
    let minTime := listMinD timestamps 0
    let maxTime := listMaxD timestamps 0
    let span := if minTime < maxTime then maxTime - minTime else 1
    let baseDt := max 1 (span / 300)
    .animation timestamps minTime maxTime baseDt
      { running := true, current := minTime, last := minTime }

/-! ## Generic fold lemmas -/

/-- Elements of the list projection of a `foldl` state either were already in
the initial projection or satisfy the per-step guarantee `P`. -/
theorem foldl_proj_mem {σ β α : Type} (π : σ → List α) (P : α → Prop)
    (f : σ → β → σ) :
    ∀ (l : List β), (∀ s b, b ∈ l → ∀ x ∈ π (f s b), x ∈ π s ∨ P x) →
      ∀ s, ∀ x ∈ π (l.foldl f s), x ∈ π s ∨ P x := by
  intro l
  induction l with
  | nil => exact fun _ s x hx => Or.inl hx
  | cons b bs ih =>
    intro hf s x hx
    rcases ih (fun s' b' hb' => hf s' b' (List.mem_cons_of_mem _ hb')) (f s b) x hx with
      h | h
    · exact hf s b (List.mem_cons_self _ _) x h
    · exact Or.inr h

/-! ## C1: correlation soundness of the packet-flow correlator -/

theorem dropStale_eq_cons {t : Time} {q rest : List CorrRecv} {r : CorrRecv}
    (h : dropStale t q = r :: rest) : t < r.time := by
  induction q with
  | nil => simp [dropStale] at h
  | cons a as ih =>
    rw [dropStale] at h
    by_cases ha : a.time ≤ t
    · rw [if_pos ha] at h; exact ih h
    · rw [if_neg ha] at h
      injection h with h1 _
      subst h1
      exact not_le.mp ha

theorem matchRecvEvent_some {lk : Lookup} {n o : Int} {t : Time} {r : CorrRecv}
    {lk' : Lookup} (h : matchRecvEvent lk n o t = (some r, lk')) :
    t < r.time ∧ r.time - t ≤ MAX_PROPAGATION_DELAY_MS := by
  unfold matchRecvEvent at h
  split at h
  · simp at h
  · split at h
    · simp at h
    · split at h
      · simp at h
      · rename_i hds
        split at h
        · rename_i hd
          simp only [Prod.mk.injEq, Option.some.injEq] at h
          obtain ⟨hr, _⟩ := h
          subst hr
          exact ⟨dropStale_eq_cons hds, hd⟩
        · simp at h

theorem hasEdge_of_mem_neighbors {g : Graph} {a n : Int}
    (h : n ∈ g.neighbors a) : g.hasEdge a n = true := by
  unfold Graph.neighbors at h
  rw [List.mem_filterMap] at h
  obtain ⟨e, he, hfe⟩ := h
  unfold Graph.hasEdge
  rw [List.any_eq_true]
  refine ⟨e, he, ?_⟩
  by_cases h1 : e.1 = a
  · rw [if_pos h1] at hfe
    simp only [Option.some.injEq] at hfe
    simp [h1, hfe]
  · rw [if_neg h1] at hfe
    by_cases h2 : e.2 = a
    · rw [if_pos h2] at hfe
      simp only [Option.some.injEq] at hfe
      simp [h1, h2, hfe]
    · rw [if_neg h2] at hfe
      simp at hfe

theorem processSend_sound (g : Graph) (s : SendRow)
    (p : List Transmission × Lookup) :
    ∀ tx ∈ (processSend g s p).1, tx ∈ p.1 ∨
      (tx.send_time < tx.arrival_time ∧
       tx.arrival_time - tx.send_time ≤ MAX_PROPAGATION_DELAY_MS ∧
       g.hasEdge tx.sender_id tx.receiver_id = true) := by
  unfold processSend
  refine foldl_proj_mem Prod.fst _ _ _ ?_ p
  intro p' n hn tx htx
  rcases hm : matchRecvEvent p'.2 n (s.originator_id.getD s.sender_id) s.time with
    ⟨res, lk⟩
  rw [hm] at htx
  cases res with
  | none => exact Or.inl htx
  | some r =>
    rcases List.mem_append.mp htx with h | h
    · exact Or.inl h
    · rcases List.mem_singleton.mp h with rfl
      obtain ⟨h1, h2⟩ := matchRecvEvent_some hm
      exact Or.inr ⟨h1, h2, hasEdge_of_mem_neighbors hn⟩

/-- C1 (confirmed). Correlation soundness: with `maxDelay` the constant
`MAX_PROPAGATION_DELAY_MS = 5`, every `Transmission` produced by
`PacketFlowAnimator._build_transmissions` / `_match_recv_event` has
`arrival_time` strictly greater than `send_time`, differing by at most
`maxDelay`, and `(sender_id, receiver_id)` an edge of the topology graph
passed in. -/
theorem C1_correlation_soundness (g : Graph) (sends : List SendRow)
    (recvs : List RecvRow) (tx : Transmission)
    (h : tx ∈ buildTransmissions g sends recvs) :
    MAX_PROPAGATION_DELAY_MS = 5 ∧
    tx.send_time < tx.arrival_time ∧
    tx.arrival_time - tx.send_time ≤ MAX_PROPAGATION_DELAY_MS ∧
    g.hasEdge tx.sender_id tx.receiver_id = true := by
  unfold buildTransmissions at h
  have := foldl_proj_mem Prod.fst
    (fun tx : Transmission =>
      tx.send_time < tx.arrival_time ∧
      tx.arrival_time - tx.send_time ≤ MAX_PROPAGATION_DELAY_MS ∧
      g.hasEdge tx.sender_id tx.receiver_id = true)
    (fun p s => processSend g s p) _
    (fun p s _ tx htx => processSend_sound g s p tx htx) _ tx h
  rcases this with h0 | h0
  · simp at h0
  · exact ⟨rfl, h0⟩

/-- Witness for C1 at a concrete trace: topology edge `(1,2)`, a SEND at
`t = 10` from node 1 and a RECV at `t = 13` on node 2. -/
theorem C1_correlation_soundness_witness :
    ((⟨10, 13, 1, 2, 1⟩ : Transmission) ∈
      buildTransmissions (buildTopologySendersOnly [Ev.topology 1 2])
        ([⟨10, 1, some 1, none, none⟩] : List SendRow)
        ([⟨13, 2, some 1, none, none⟩] : List RecvRow)) ∧
    (MAX_PROPAGATION_DELAY_MS = 5 ∧
     (⟨10, 13, 1, 2, 1⟩ : Transmission).send_time <
       (⟨10, 13, 1, 2, 1⟩ : Transmission).arrival_time ∧
     (⟨10, 13, 1, 2, 1⟩ : Transmission).arrival_time -
       (⟨10, 13, 1, 2, 1⟩ : Transmission).send_time ≤ MAX_PROPAGATION_DELAY_MS ∧
     (buildTopologySendersOnly [Ev.topology 1 2]).hasEdge
       (⟨10, 13, 1, 2, 1⟩ : Transmission).sender_id
       (⟨10, 13, 1, 2, 1⟩ : Transmission).receiver_id = true) :=
  ⟨by decide,
   C1_correlation_soundness (buildTopologySendersOnly [Ev.topology 1 2])
     [⟨10, 1, some 1, none, none⟩] [⟨13, 2, some 1, none, none⟩]
     ⟨10, 13, 1, 2, 1⟩ (by decide)⟩

/-! ## C2: the two-sends scenario -/

/-- The C2 scenario trace: two SENDs from node 1 at `t = 10` and `t = 12`
with the same originator, one RECV at node 2 at `t = 13`, nodes 1 and 2
adjacent in the topology. -/
def c2Trace : List Ev :=
  [.topology 1 2, .send 10 1 (some 1) none none, .send 12 1 (some 1) none none,
   .recv 13 2 (some 1) none none]

/-- C2 counterexample: on the scenario trace the correlator emits exactly one
Transmission to node 2, and its `send_time` is 10 — no Transmission has
`send_time = 12`, so the claim that the RECV is matched to the `t = 12` Send
(and that the `t = 10` Send produces nothing) is false. -/
theorem C2_counterexample :
    pfRun c2Trace = [⟨10, 13, 1, 2, 1⟩] ∧
    ¬ ∃ tx ∈ pfRun c2Trace, tx.send_time = 12 := by
  decide

/-- C2 (corrected): `_build_transmissions` processes Sends in ascending time
order and `_match_recv_event` matches greedily, so the RECV at `t = 13`
(within the 5 ms window of both Sends) is consumed by the earliest Send, at
`t = 10`; the `t = 12` Send then finds an empty queue and produces no
Transmission to node 2. -/
theorem C2_amended :
    pfRun c2Trace =
      [{ send_time := 10, arrival_time := 13, sender_id := 1, receiver_id := 2,
         originator_id := 1 }] := by
  decide

/-! ## C3: at-most-one match -/

/-- The C3 counterexample trace: two duplicate RECV rows (node 2, origin 1,
`t = 13`) are consumed by two different Sends, yielding two Transmissions
with the same `(receiver, originator, arrival)` triple. -/
def c3Trace : List Ev :=
  [.topology 1 2, .topology 3 2,
   .send 10 1 (some 1) none none, .send 11 3 (some 1) none none,
   .recv 13 2 (some 1) none none, .recv 13 2 (some 1) none none]

/-- C3 counterexample: with two identical RECV rows in the trace the
correlator emits two distinct Transmissions sharing the triple
`(2, 1, 13)`, so the claim as stated (for every input trace) is false. -/
theorem C3_counterexample :
    pfRun c3Trace = [⟨10, 13, 1, 2, 1⟩, ⟨11, 13, 3, 2, 1⟩] ∧
    ¬ ((pfRun c3Trace).map fun tx =>
        (tx.receiver_id, tx.originator_id, tx.arrival_time)).Nodup := by
  decide

/-! ### C3 machinery: every Transmission consumes one queued RECV row -/

/-- Occurrence count of `c` in `l` (instance-free, via `filter`). -/
def countOcc {α : Type} [DecidableEq α] (l : List α) (c : α) : Nat :=
  (l.filter fun x => decide (x = c)).length

theorem countOcc_nil {α : Type} [DecidableEq α] (c : α) :
    countOcc [] c = 0 := rfl

theorem countOcc_cons {α : Type} [DecidableEq α] (x : α) (l : List α) (c : α) :
    countOcc (x :: l) c = countOcc l c + (if x = c then 1 else 0) := by
  unfold countOcc
  rw [List.filter_cons]
  by_cases h : x = c
  · simp [h, Nat.add_comm]
  · simp [h]

theorem countOcc_singleton {α : Type} [DecidableEq α] (x c : α) :
    countOcc [x] c = if x = c then 1 else 0 := by
  rw [countOcc_cons, countOcc_nil, Nat.zero_add]

theorem countOcc_append {α : Type} [DecidableEq α] (l₁ l₂ : List α) (c : α) :
    countOcc (l₁ ++ l₂) c = countOcc l₁ c + countOcc l₂ c := by
  unfold countOcc
  rw [List.filter_append, List.length_append]

theorem countOcc_sublist {α : Type} [DecidableEq α] {l₁ l₂ : List α}
    (h : List.Sublist l₁ l₂) (c : α) : countOcc l₁ c ≤ countOcc l₂ c :=
  (h.filter _).length_le

theorem countOcc_perm {α : Type} [DecidableEq α] {l₁ l₂ : List α}
    (h : l₁.Perm l₂) (c : α) : countOcc l₁ c = countOcc l₂ c :=
  (h.filter _).length_eq

theorem nodup_iff_countOcc_le_one {α : Type} [DecidableEq α] (l : List α) :
    l.Nodup ↔ ∀ c, countOcc l c ≤ 1 := by
  induction l with
  | nil => simp [countOcc]
  | cons x xs ih =>
    rw [List.nodup_cons]
    constructor
    · rintro ⟨hx, hnd⟩ c
      rw [countOcc_cons]
      by_cases hc : x = c
      · subst hc
        rw [if_pos rfl]
        have hz : countOcc xs x = 0 := by
          unfold countOcc
          rw [List.length_eq_zero, List.filter_eq_nil_iff]
          intro a ha
          simp only [decide_eq_true_eq]
          intro heq
          exact hx (heq ▸ ha)
        omega
      · rw [if_neg hc]
        have := (ih.mp hnd) c
        omega
    · intro h
      refine ⟨?_, ih.mpr fun c => ?_⟩
      · intro hmem
        have h1 := h x
        rw [countOcc_cons, if_pos rfl] at h1
        have hge : 1 ≤ countOcc xs x := by
          have hmf : x ∈ xs.filter fun y => decide (y = x) :=
            List.mem_filter.mpr ⟨hmem, by simp⟩
          exact List.length_pos.mpr (List.ne_nil_of_mem hmf)
        omega
      · have h1 := h c
        rw [countOcc_cons] at h1
        omega

/-- The claim's identifying triple of a queued RECV row. -/
def rowTriple (r : CorrRecv) : Int × Int × Time :=
  (r.receiver_id, r.originator_id, r.time)

/-- The claim's identifying triple of a Transmission. -/
def txTriple (tx : Transmission) : Int × Int × Time :=
  (tx.receiver_id, tx.originator_id, tx.arrival_time)

/-- How many rows with triple `c` remain across all queues of the lookup. -/
def lookupTripleCount (lk : Lookup) (c : Int × Int × Time) : Nat :=
  (lk.map fun kv => countOcc (kv.2.map rowTriple) c).sum

/-- Each queue holds only rows keyed by its `(receiver, originator)` key. -/
def WellKeyed (lk : Lookup) : Prop :=
  ∀ kv ∈ lk, ∀ r ∈ kv.2, r.receiver_id = kv.1.1 ∧ r.originator_id = kv.1.2

/-- The lookup has no duplicate keys. -/
def KeysNodup (lk : Lookup) : Prop := (lk.map Prod.fst).Nodup

theorem lookupSet_map_fst (lk : Lookup) (k : Int × Int) (q : List CorrRecv) :
    (lookupSet lk k q).map Prod.fst = lk.map Prod.fst := by
  unfold lookupSet
  rw [List.map_map]
  apply List.map_congr_left
  intro kv _
  by_cases hk : kv.1 = k
  · simp [hk]
  · simp [hk]

theorem lookupGet_none_not_mem {lk : Lookup} {k : Int × Int}
    (h : lookupGet lk k = none) : k ∉ lk.map Prod.fst := by
  unfold lookupGet at h
  rw [Option.map_eq_none'] at h
  rw [List.find?_eq_none] at h
  intro hmem
  rw [List.mem_map] at hmem
  obtain ⟨kv, hkv, hfst⟩ := hmem
  exact h kv hkv (by simp [hfst])

theorem lookupGet_some_mem {lk : Lookup} {k : Int × Int} {q : List CorrRecv}
    (h : lookupGet lk k = some q) : (k, q) ∈ lk := by
  unfold lookupGet at h
  rw [Option.map_eq_some'] at h
  obtain ⟨kv, hfind, h2⟩ := h
  have hp := List.find?_some hfind
  have hmem := List.mem_of_find?_eq_some hfind
  simp only [decide_eq_true_eq] at hp
  have hkv : kv = (k, q) := by
    cases kv
    simp_all
  rwa [hkv] at hmem

theorem lookupSet_not_mem {lk : Lookup} {k : Int × Int} (q : List CorrRecv)
    (h : k ∉ lk.map Prod.fst) : lookupSet lk k q = lk := by
  unfold lookupSet
  have : ∀ kv ∈ lk, (if kv.1 = k then (kv.1, q) else kv) = kv := by
    intro kv hkv
    rw [if_neg]
    intro hk
    exact h (List.mem_map.mpr ⟨kv, hkv, hk⟩)
  rw [List.map_congr_left this]
  simp

theorem lookupTripleCount_set {lk : Lookup} {k : Int × Int} {q : List CorrRecv}
    (q' : List CorrRecv) (hnd : KeysNodup lk) (hget : lookupGet lk k = some q)
    (c : Int × Int × Time) :
    lookupTripleCount (lookupSet lk k q') c + countOcc (q.map rowTriple) c =
    lookupTripleCount lk c + countOcc (q'.map rowTriple) c := by
  induction lk with
  | nil => simp [lookupGet] at hget
  | cons kv rest ih =>
    by_cases hk : kv.1 = k
    · have hq : q = kv.2 := by
        unfold lookupGet at hget
        rw [List.find?_cons_of_pos _ (by simp [hk])] at hget
        simp only [Option.map_some', Option.some.injEq] at hget
        exact hget.symm
      have hknotin : k ∉ rest.map Prod.fst := by
        have := hnd
        unfold KeysNodup at this
        rw [List.map_cons, List.nodup_cons] at this
        rw [← hk]
        exact this.1
      unfold lookupSet
      rw [List.map_cons, if_pos hk]
      have hrest : lookupSet rest k q' = rest := lookupSet_not_mem q' hknotin
      unfold lookupSet at hrest
      rw [hrest]
      unfold lookupTripleCount
      rw [List.map_cons, List.map_cons, List.sum_cons, List.sum_cons]
      simp only
      rw [hq]
      omega
    · have hget' : lookupGet rest k = some q := by
        unfold lookupGet at hget ⊢
        rwa [List.find?_cons_of_neg _ (by simp [hk])] at hget
      have hnd' : KeysNodup rest := by
        have := hnd
        unfold KeysNodup at this ⊢
        rw [List.map_cons, List.nodup_cons] at this
        exact this.2
      have := ih hnd' hget'
      unfold lookupSet at this ⊢
      unfold lookupTripleCount at this ⊢
      rw [List.map_cons, if_neg hk, List.map_cons, List.sum_cons,
        List.map_cons, List.sum_cons]
      omega

theorem wellKeyed_set {lk : Lookup} {k : Int × Int} {q q' : List CorrRecv}
    (hwk : WellKeyed lk) (hget : lookupGet lk k = some q)
    (hsub : ∀ x ∈ q', x ∈ q ∨ (x.receiver_id = k.1 ∧ x.originator_id = k.2)) :
    WellKeyed (lookupSet lk k q') := by
  intro kv' hkv' r hr
  unfold lookupSet at hkv'
  rw [List.mem_map] at hkv'
  obtain ⟨kv, hkv, heq⟩ := hkv'
  by_cases hk : kv.1 = k
  · rw [if_pos hk] at heq
    subst heq
    simp only at hr ⊢
    rcases hsub r hr with hmem | hfields
    · have := hwk (k, q) (lookupGet_some_mem hget) r hmem
      simp only at this
      rw [hk]
      exact this
    · rw [hk]
      exact hfields
  · rw [if_neg hk] at heq
    subst heq
    exact hwk kv hkv r hr

theorem keysNodup_set {lk : Lookup} {k : Int × Int} {q : List CorrRecv}
    (hnd : KeysNodup lk) : KeysNodup (lookupSet lk k q) := by
  unfold KeysNodup
  rw [lookupSet_map_fst]
  exact hnd

theorem dropStale_sublist (t : Time) (q : List CorrRecv) :
    List.Sublist (dropStale t q) q := by
  induction q with
  | nil => simp [dropStale]
  | cons a as ih =>
    rw [dropStale]
    by_cases ha : a.time ≤ t
    · rw [if_pos ha]
      exact ih.trans (List.sublist_cons_self a as)
    · rw [if_neg ha]

/-- The contribution of a match result to the transmission-triple count. -/
def resContrib (res : Option CorrRecv) (c : Int × Int × Time) : Nat :=
  match res with
  | some r => if rowTriple r = c then 1 else 0
  | none => 0

theorem matchRecvEvent_spec {lk : Lookup} {n o : Int} {t : Time}
    {res : Option CorrRecv} {lk' : Lookup}
    (hwk : WellKeyed lk) (hnd : KeysNodup lk)
    (hm : matchRecvEvent lk n o t = (res, lk')) (c : Int × Int × Time) :
    WellKeyed lk' ∧ KeysNodup lk' ∧
    (lookupTripleCount lk' c + resContrib res c ≤ lookupTripleCount lk c) ∧
    (∀ r, res = some r → r.receiver_id = n ∧ r.originator_id = o) := by
  unfold matchRecvEvent at hm
  split at hm
  · injection hm with h1 h2
    subst h1; subst h2
    exact ⟨hwk, hnd, by simp [resContrib], by simp⟩
  · rename_i q hget
    split at hm
    · injection hm with h1 h2
      subst h1; subst h2
      exact ⟨hwk, hnd, by simp [resContrib], by simp⟩
    · rename_i hq
      split at hm
      · rename_i hds
        injection hm with h1 h2
        subst h1; subst h2
        refine ⟨wellKeyed_set hwk hget (by simp), keysNodup_set hnd, ?_, by simp⟩
        have hset := lookupTripleCount_set ([] : List CorrRecv) hnd hget c
        simp only [List.map_nil, countOcc_nil] at hset
        simp only [resContrib]
        omega
      · rename_i r0 rest hds
        have hsubl : List.Sublist (r0 :: rest) q := by
          rw [← hds]; exact dropStale_sublist t q
        have hmem0 : r0 ∈ q := hsubl.subset (List.mem_cons_self _ _)
        have hfields := hwk ((n, o), q) (lookupGet_some_mem hget) r0 hmem0
        split at hm
        · rename_i hd
          injection hm with h1 h2
          subst h1; subst h2
          have hset := lookupTripleCount_set rest hnd hget c
          have hcnt : countOcc ((r0 :: rest).map rowTriple) c ≤
              countOcc (q.map rowTriple) c :=
            countOcc_sublist (hsubl.map rowTriple) c
          rw [List.map_cons, countOcc_cons] at hcnt
          refine ⟨wellKeyed_set hwk hget
              (fun x hx => Or.inl (hsubl.subset (List.mem_cons_of_mem _ hx))),
            keysNodup_set hnd, ?_, ?_⟩
          · simp only [resContrib]
            by_cases hc : rowTriple r0 = c
            · rw [if_pos hc] at hcnt ⊢
              omega
            · rw [if_neg hc] at hcnt ⊢
              omega
          · intro r hr
            injection hr with hr
            subst hr
            exact hfields
        · injection hm with h1 h2
          subst h1; subst h2
          have hset := lookupTripleCount_set (r0 :: rest) hnd hget c
          have hcnt : countOcc ((r0 :: rest).map rowTriple) c ≤
              countOcc (q.map rowTriple) c :=
            countOcc_sublist (hsubl.map rowTriple) c
          refine ⟨wellKeyed_set hwk hget
              (fun x hx => Or.inl (hsubl.subset hx)),
            keysNodup_set hnd, ?_, by simp⟩
          simp only [resContrib]
          omega

/-- A `foldl` step that preserves an invariant and never increases a measure
propagates both along the whole fold. -/
theorem foldl_invariant_mono {σ β : Type} (I : σ → Prop) (μ : σ → Nat)
    (f : σ → β → σ) (hf : ∀ s b, I s → I (f s b) ∧ μ (f s b) ≤ μ s) :
    ∀ (l : List β) (s : σ), I s → I (l.foldl f s) ∧ μ (l.foldl f s) ≤ μ s := by
  intro l
  induction l with
  | nil => exact fun s hs => ⟨hs, le_refl _⟩
  | cons b bs ih =>
    intro s hs
    obtain ⟨h1, h2⟩ := hf s b hs
    obtain ⟨h3, h4⟩ := ih (f s b) h1
    exact ⟨h3, h4.trans h2⟩

/-- One send: the emitted-plus-remaining count of any triple never increases,
and the lookup invariants are preserved. -/
theorem processSend_count (g : Graph) (s : SendRow) (c : Int × Int × Time)
    (p : List Transmission × Lookup)
    (hI : WellKeyed p.2 ∧ KeysNodup p.2) :
    (WellKeyed (processSend g s p).2 ∧ KeysNodup (processSend g s p).2) ∧
    countOcc ((processSend g s p).1.map txTriple) c +
        lookupTripleCount (processSend g s p).2 c ≤
      countOcc (p.1.map txTriple) c + lookupTripleCount p.2 c := by
  unfold processSend
  refine foldl_invariant_mono
    (fun p0 : List Transmission × Lookup => WellKeyed p0.2 ∧ KeysNodup p0.2)
    (fun p0 => countOcc (p0.1.map txTriple) c + lookupTripleCount p0.2 c)
    _ ?_ _ p hI
  intro p0 n hI0
  split
  · rename_i lk' hm
    obtain ⟨hwk', hnd', hle, _⟩ := matchRecvEvent_spec hI0.1 hI0.2 hm c
    simp only [resContrib] at hle
    exact ⟨⟨hwk', hnd'⟩, by simp only; omega⟩
  · rename_i r lk' hm
    obtain ⟨hwk', hnd', hle, hfld⟩ := matchRecvEvent_spec hI0.1 hI0.2 hm c
    obtain ⟨hrec, horig⟩ := hfld r rfl
    simp only [resContrib] at hle
    refine ⟨⟨hwk', hnd'⟩, ?_⟩
    simp only [List.map_append, countOcc_append, List.map_cons, List.map_nil]
    have hx : (countOcc [txTriple
        ⟨s.time, r.time, s.sender_id, n, s.originator_id.getD s.sender_id⟩] c) =
        if rowTriple r = c then 1 else 0 := by
      rw [countOcc_singleton]
      unfold txTriple rowTriple
      simp only [hrec, horig]
    rw [hx]
    omega

/-- Appending one RECV row into its keyed queue preserves the invariants and
adds exactly its triple's indicator to the remaining count. -/
theorem lookupAppend_spec {lk : Lookup} (r : CorrRecv) (c : Int × Int × Time)
    (hwk : WellKeyed lk) (hnd : KeysNodup lk) :
    WellKeyed (lookupAppend lk (r.receiver_id, r.originator_id) r) ∧
    KeysNodup (lookupAppend lk (r.receiver_id, r.originator_id) r) ∧
    lookupTripleCount (lookupAppend lk (r.receiver_id, r.originator_id) r) c =
      lookupTripleCount lk c + (if rowTriple r = c then 1 else 0) := by
  unfold lookupAppend
  split
  · rename_i hget
    refine ⟨?_, ?_, ?_⟩
    · intro kv hkv x hx
      rcases List.mem_append.mp hkv with h | h
      · exact hwk kv h x hx
      · rcases List.mem_singleton.mp h with rfl
        rcases List.mem_singleton.mp hx with rfl
        exact ⟨rfl, rfl⟩
    · have hnotin := lookupGet_none_not_mem hget
      unfold KeysNodup at hnd ⊢
      rw [List.map_append]
      rw [List.nodup_append]
      refine ⟨hnd, by simp, ?_⟩
      intro a ha hb
      have hak : a = (r.receiver_id, r.originator_id) := by simpa using hb
      subst hak
      exact hnotin ha
    · unfold lookupTripleCount
      rw [List.map_append, List.sum_append]
      simp only [List.map_cons, List.map_nil, List.sum_cons, List.sum_nil,
        countOcc_singleton]
      omega
  · rename_i q hget
    refine ⟨wellKeyed_set hwk hget ?_, keysNodup_set hnd, ?_⟩
    · intro x hx
      rcases List.mem_append.mp hx with h | h
      · exact Or.inl h
      · rcases List.mem_singleton.mp h with rfl
        exact Or.inr ⟨rfl, rfl⟩
    · have hset := lookupTripleCount_set (q ++ [r]) hnd hget c
      rw [List.map_append, countOcc_append] at hset
      simp only [List.map_cons, List.map_nil, countOcc_singleton] at hset
      omega

/-- The initial lookup is well formed, and holds exactly the input rows'
triples. -/
theorem buildLookup_spec (rs : List CorrRecv) (c : Int × Int × Time) :
    WellKeyed (buildLookup rs) ∧ KeysNodup (buildLookup rs) ∧
    lookupTripleCount (buildLookup rs) c = countOcc (rs.map rowTriple) c := by
  unfold buildLookup
  suffices h : ∀ lk : Lookup, WellKeyed lk → KeysNodup lk →
      WellKeyed (rs.foldl
        (fun lk r => lookupAppend lk (r.receiver_id, r.originator_id) r) lk) ∧
      KeysNodup (rs.foldl
        (fun lk r => lookupAppend lk (r.receiver_id, r.originator_id) r) lk) ∧
      lookupTripleCount (rs.foldl
        (fun lk r => lookupAppend lk (r.receiver_id, r.originator_id) r) lk) c =
        lookupTripleCount lk c + countOcc (rs.map rowTriple) c by
    have h0 := h [] (by intro kv hkv; simp at hkv) (by simp [KeysNodup])
    simpa [lookupTripleCount] using h0
  induction rs with
  | nil =>
    intro lk hwk hnd
    refine ⟨hwk, hnd, ?_⟩
    simp [List.foldl_nil, List.map_nil, countOcc_nil]
  | cons r rest ih =>
    intro lk hwk hnd
    obtain ⟨hwk', hnd', hcnt⟩ := lookupAppend_spec r c hwk hnd
    obtain ⟨h1, h2, h3⟩ := ih _ hwk' hnd'
    refine ⟨h1, h2, ?_⟩
    rw [List.foldl_cons] at *
    rw [h3, hcnt, List.map_cons, countOcc_cons]
    omega

/-- Every triple occurs among the emitted Transmissions at most as often as
among the (dropna-filtered) RECV rows. -/
theorem buildTransmissions_count (g : Graph) (sends : List SendRow)
    (recvs : List RecvRow) (c : Int × Int × Time) :
    countOcc ((buildTransmissions g sends recvs).map txTriple) c ≤
      countOcc ((corrRecvs recvs).map rowTriple) c := by
  unfold buildTransmissions
  obtain ⟨hwk, hnd, hcount⟩ := buildLookup_spec
    (List.insertionSort (fun a b : CorrRecv => a.time ≤ b.time) (corrRecvs recvs)) c
  have hmain := foldl_invariant_mono
    (fun p0 : List Transmission × Lookup => WellKeyed p0.2 ∧ KeysNodup p0.2)
    (fun p0 => countOcc (p0.1.map txTriple) c + lookupTripleCount p0.2 c)
    (fun p s => processSend g s p)
    (fun p s hI => processSend_count g s c p hI)
    (List.insertionSort (fun a b : SendRow => a.time ≤ b.time) sends)
    ([], buildLookup
      (List.insertionSort (fun a b : CorrRecv => a.time ≤ b.time) (corrRecvs recvs)))
    ⟨hwk, hnd⟩
  obtain ⟨-, hle⟩ := hmain
  simp only [List.map_nil, countOcc_nil, Nat.zero_add] at hle
  have hperm : countOcc ((List.insertionSort (fun a b : CorrRecv => a.time ≤ b.time)
      (corrRecvs recvs)).map rowTriple) c =
      countOcc ((corrRecvs recvs).map rowTriple) c :=
    countOcc_perm ((List.perm_insertionSort _ _).map rowTriple) c
  rw [hcount, hperm] at hle
  omega

/-- C3 (corrected). At-most-one match holds for every trace whose
(dropna-filtered) RECV rows have pairwise-distinct
`(receiver_id, originator_id, time)` triples: each match dequeues its RECV
row, so no two Transmissions share a `(receiver_id, originator_id,
arrival_time)` triple.  With duplicate RECV rows the triple can repeat
(see the counterexample), so the claim is weakened by exactly that
hypothesis. -/
theorem C3_at_most_one_match (g : Graph) (sends : List SendRow)
    (recvs : List RecvRow)
    (hnodup : ((corrRecvs recvs).map rowTriple).Nodup) :
    ((buildTransmissions g sends recvs).map txTriple).Nodup := by
  rw [nodup_iff_countOcc_le_one] at hnodup ⊢
  intro c
  exact le_trans (buildTransmissions_count g sends recvs c) (hnodup c)

/-- Witness for the corrected C3 at a concrete trace with a single RECV. -/
theorem C3_at_most_one_match_witness :
    ((corrRecvs [⟨13, 2, some 1, none, none⟩]).map rowTriple).Nodup ∧
    ((buildTransmissions (buildTopologySendersOnly [Ev.topology 1 2])
        ([⟨10, 1, some 1, none, none⟩] : List SendRow)
        [⟨13, 2, some 1, none, none⟩]).map txTriple).Nodup :=
  ⟨by decide,
   C3_at_most_one_match (buildTopologySendersOnly [Ev.topology 1 2])
     [⟨10, 1, some 1, none, none⟩] [⟨13, 2, some 1, none, none⟩] (by decide)⟩

/-! ## C4: frame ordering -/

theorem dedupSorted_sorted (l : List Time) :
    (dedupSorted l).Pairwise fun a b => a ≤ b := by
  unfold dedupSorted
  exact List.Pairwise.sublist (List.dedup_sublist _)
    (List.sorted_insertionSort _ l)

theorem dedupSorted_nodup (l : List Time) : (dedupSorted l).Nodup :=
  List.nodup_dedup _

theorem mem_dedupSorted {l : List Time} {t : Time} :
    t ∈ dedupSorted l ↔ t ∈ l := by
  unfold dedupSorted
  rw [List.mem_dedup, List.mem_insertionSort]

theorem dedupSorted_strict (l : List Time) :
    (dedupSorted l).Pairwise fun a b => a < b :=
  ((dedupSorted_sorted l).and (dedupSorted_nodup l)).imp
    fun h => lt_of_le_of_ne h.1 h.2

/-- The C4 counterexample trace: one SEND and one RECV at the same
timestamp `t = 10`. -/
def c4Trace : List Ev :=
  [.topology 1 2, .send 10 1 (some 1) none none, .recv 10 2 (some 1) none none]

/-- C4 counterexample: with a SEND and a RECV at the same timestamp,
`_group_events` emits two entries sharing `time_ms = 10` (one SEND-phase and
one RECV-phase), so the sequence is not strictly increasing and two entries
share a timestamp; the claim as stated is false. -/
theorem C4_counterexample :
    ((pfGroupEvents c4Trace).map fun ge => ge.time_ms) = [10, 10] ∧
    ¬ ((pfGroupEvents c4Trace).Pairwise fun a b => a.time_ms < b.time_ms) := by
  decide

/-- C4 (corrected). The grouped event sequence of
`PacketFlowAnimator._group_events` is sorted by non-decreasing `time_ms`; a
timestamp is shared only between one SEND-phase and one RECV-phase entry (at
most one entry per `(timestamp, phase)`); every entry's timestamp comes from
some SEND or RECV row (a timestamp with zero SEND/RECV events produces no
entry); and the per-timestamp sequence `sorted_event_times` of
`AnimatedVisualizer` is strictly increasing with no duplicates. -/
theorem C4_frame_ordering (sends : List SendRow) (recvs : List RecvRow)
    (txs : List Transmission) :
    ((groupEvents sends recvs txs).Pairwise fun a b => a.time_ms ≤ b.time_ms) ∧
    ((groupEvents sends recvs txs).Pairwise fun a b =>
      a.time_ms ≠ b.time_ms ∨ a.phase ≠ b.phase) ∧
    (∀ ge ∈ groupEvents sends recvs txs,
      (∃ s ∈ sends, s.time = ge.time_ms) ∨ (∃ r ∈ recvs, r.time = ge.time_ms)) ∧
    ((avSortedEventTimes sends recvs).Pairwise fun a b => a < b) := by
  have hperm := List.perm_insertionSort
    (fun a b : GroupedEvent => a.time_ms ≤ b.time_ms)
    (sendEntriesOf sends txs ++ recvEntriesOf recvs)
  refine ⟨List.sorted_insertionSort _ _, ?_, ?_, dedupSorted_strict _⟩
  · have hsymm : ∀ {x y : GroupedEvent},
        (x.time_ms ≠ y.time_ms ∨ x.phase ≠ y.phase) →
        (y.time_ms ≠ x.time_ms ∨ y.phase ≠ x.phase) := by
      intro a b h
      rcases h with h | h
      · exact Or.inl (Ne.symm h)
      · exact Or.inr (Ne.symm h)
    unfold groupEvents
    rw [List.Perm.pairwise_iff hsymm hperm]
    rw [List.pairwise_append]
    refine ⟨?_, ?_, ?_⟩
    · unfold sendEntriesOf
      rw [List.pairwise_map]
      exact (dedupSorted_nodup _).imp fun hne => Or.inl hne
    · unfold recvEntriesOf
      rw [List.pairwise_map]
      exact (dedupSorted_nodup _).imp fun hne => Or.inl hne
    · intro x hx y hy
      right
      have hx' : x.phase = Phase.send := by
        unfold sendEntriesOf at hx
        rcases List.mem_map.mp hx with ⟨t, _, rfl⟩
        rfl
      have hy' : y.phase = Phase.recv := by
        unfold recvEntriesOf at hy
        rcases List.mem_map.mp hy with ⟨t, _, rfl⟩
        rfl
      rw [hx', hy']
      decide
  · intro ge hge
    unfold groupEvents at hge
    rw [List.mem_insertionSort] at hge
    rcases List.mem_append.mp hge with h | h
    · left
      unfold sendEntriesOf at h
      rcases List.mem_map.mp h with ⟨t, ht, rfl⟩
      rcases List.mem_map.mp (mem_dedupSorted.mp ht) with ⟨srow, hs, rfl⟩
      exact ⟨srow, hs, rfl⟩
    · right
      unfold recvEntriesOf at h
      rcases List.mem_map.mp h with ⟨t, ht, rfl⟩
      rcases List.mem_map.mp (mem_dedupSorted.mp ht) with ⟨rrow, hr, rfl⟩
      exact ⟨rrow, hr, rfl⟩

/-- Witness for the corrected C4 at a concrete two-row trace. -/
theorem C4_frame_ordering_witness :
    ((groupEvents ([⟨10, 1, some 1, none, none⟩] : List SendRow)
        ([⟨11, 2, some 1, none, none⟩] : List RecvRow) []).Pairwise
      fun a b => a.time_ms ≤ b.time_ms) ∧
    ((avSortedEventTimes [⟨10, 1, some 1, none, none⟩]
        [⟨11, 2, some 1, none, none⟩]).Pairwise fun a b => a < b) :=
  ⟨(C4_frame_ordering [⟨10, 1, some 1, none, none⟩]
      [⟨11, 2, some 1, none, none⟩] []).1,
   (C4_frame_ordering [⟨10, 1, some 1, none, none⟩]
      [⟨11, 2, some 1, none, none⟩] []).2.2.2⟩

/-! ## C5: where the playback wrap lands -/

/-- The C5 counterexample trace: SEND events at `t = 10` and `t = 20`, so
`build_animation` derives timestamps `[10, 20]`, `min_time = 10`,
`max_time = 20` and `base_dt = 1`. -/
def c5Trace : List Ev :=
  [.topology 1 2, .send 10 1 (some 1) none none, .send 20 1 (some 1) none none]

/-- C5 counterexample: with the exact parameters `build_animation` derives
from the trace, an advance step at the last frame (`t = 20`, speed 1) wraps
the cursor to `t = 11`, not to the first frame's time `t = 10` — phase3's
wrap carries the overshoot past the first frame instead of landing exactly
on it. -/
theorem C5_counterexample :
    buildAnimation (p3ExtractTopology c5Trace) (sendsOf c5Trace) (recvsOf c5Trace) =
      BuildAnimResult.animation [10, 20] 10 20 1 ⟨true, 10, 10⟩ ∧
    (advanceFrame [10, 20] 10 20 1 1 ⟨true, 20, 20⟩).current = 11 ∧
    ((11 : Time) ≠ 10) := by
  decide

/-- C5 (corrected). `AnimatedVisualizer._next_event` at the last event index
wraps exactly to the first event time (index 0); phase3's `advance_frame`,
whenever the clamped step exceeds `max_time`, instead sets the cursor to
`min_time + (newTime − max_time)`, strictly past the first frame's time. -/
theorem C5_wrap (times : List Time) (minTime : Time) (st : AVState)
    (timestamps : List Time) (minT maxT baseDt speedVal : Time) (st3 : P3State)
    (hav : ¬ st.current_event_index < times.length - 1)
    (hrun : st3.running = true)
    (hnoclamp : ¬ (st3.current < nextTimestamp timestamps minT st3.current ∧
      nextTimestamp timestamps minT st3.current ≤ st3.current + p3Dt baseDt speedVal))
    (hwrap : maxT < st3.current + p3Dt baseDt speedVal) :
    ((nextEvent times minTime st).current_time = times.headD minTime ∧
     (nextEvent times minTime st).current_event_index = 0) ∧
    ((advanceFrame timestamps minT maxT baseDt speedVal st3).current =
      minT + (st3.current + p3Dt baseDt speedVal - maxT) ∧
     minT < (advanceFrame timestamps minT maxT baseDt speedVal st3).current) := by
  constructor
  · unfold nextEvent
    rw [if_neg hav]
    exact ⟨rfl, rfl⟩
  · have hres : (advanceFrame timestamps minT maxT baseDt speedVal st3).current =
        minT + (st3.current + p3Dt baseDt speedVal - maxT) := by
      simp only [advanceFrame, hrun]
      rw [if_neg (by simp), if_neg hnoclamp, if_pos hwrap]
    refine ⟨hres, ?_⟩
    rw [hres]
    linarith

/-- Witness for the corrected C5 at concrete playback states. -/
theorem C5_wrap_witness :
    ((¬ (⟨1, 20, true⟩ : AVState).current_event_index < ([10, 20] : List Time).length - 1) ∧
     (¬ ((⟨true, 20, 20⟩ : P3State).current <
          nextTimestamp [10, 20] 10 (⟨true, 20, 20⟩ : P3State).current ∧
        nextTimestamp [10, 20] 10 (⟨true, 20, 20⟩ : P3State).current ≤
          (⟨true, 20, 20⟩ : P3State).current + p3Dt 1 1)) ∧
     ((20 : Time) < (⟨true, 20, 20⟩ : P3State).current + p3Dt 1 1)) ∧
    (((nextEvent [10, 20] 10 ⟨1, 20, true⟩).current_time =
        ([10, 20] : List Time).headD 10 ∧
      (nextEvent [10, 20] 10 ⟨1, 20, true⟩).current_event_index = 0) ∧
     ((advanceFrame [10, 20] 10 20 1 1 ⟨true, 20, 20⟩).current =
        10 + ((⟨true, 20, 20⟩ : P3State).current + p3Dt 1 1 - 20) ∧
      (10 : Time) < (advanceFrame [10, 20] 10 20 1 1 ⟨true, 20, 20⟩).current)) :=
  ⟨⟨by decide, by decide, by decide⟩,
   C5_wrap [10, 20] 10 ⟨1, 20, true⟩ [10, 20] 10 20 1 1 ⟨true, 20, 20⟩
     (by decide) (by decide) (by decide) (by decide)⟩

/-! ## C6: defensive closure of the topology -/

/-- The node ids that a SEND/RECV row references as sender, receiver or
originator. -/
def sendRecvIds : Ev → List Int
  | .send _ s o _ _ => s :: o.toList
  | .recv _ r o _ _ => r :: o.toList
  | _ => []

theorem mem_nodes_addNode (g : Graph) (a b : Int) (h : b ∈ g.nodes) :
    b ∈ (g.addNode a).nodes := by
  unfold Graph.addNode
  split
  · exact h
  · exact List.mem_append_left _ h

theorem self_mem_addNode (g : Graph) (a : Int) : a ∈ (g.addNode a).nodes := by
  unfold Graph.addNode
  split
  · assumption
  · exact List.mem_append_right _ (List.mem_singleton_self a)

theorem mem_nodes_foldl_addNode_of_mem (l : List Int) (b : Int) :
    ∀ g : Graph, b ∈ g.nodes → b ∈ (l.foldl Graph.addNode g).nodes := by
  induction l with
  | nil => exact fun g h => h
  | cons x xs ih => exact fun g h => ih _ (mem_nodes_addNode g x b h)

theorem mem_nodes_foldl_addNode (l : List Int) (a : Int) :
    ∀ g : Graph, a ∈ l → a ∈ (l.foldl Graph.addNode g).nodes := by
  induction l with
  | nil => intro g h; simp at h
  | cons x xs ih =>
    intro g h
    rcases List.mem_cons.mp h with rfl | h'
    · exact mem_nodes_foldl_addNode_of_mem xs a _ (self_mem_addNode g a)
    · exact ih _ h'

/-- C6 counterexample: a node id appearing only as a RECV receiver (here 5)
is not a node of the graph built by `AnimatedVisualizer._build_topology` /
`PacketFlowAnimator._build_topology` (the builders add only SEND sender ids
defensively), so the claim as stated over all three builders is false. -/
theorem C6_counterexample :
    (5 : Int) ∈ sendRecvIds (Ev.recv 13 5 (some 7) none none) ∧
    Ev.recv 13 5 (some 7) none none ∈ ([Ev.recv 13 5 (some 7) none none] : List Ev) ∧
    (5 : Int) ∉ (buildTopologySendersOnly [Ev.recv 13 5 (some 7) none none]).nodes := by
  decide

/-- C6 (corrected). Defensive closure holds for phase3's `extract_topology`:
every id appearing as sender, receiver or originator of any SEND or RECV row
is a node of its graph.  The packet-flow and animated visualizers' builders
guarantee only that every SEND row's sender id is a node; an id appearing
only in RECV rows may be missing from their graphs (see the
counterexample). -/
theorem C6_defensive_closure (tr : List Ev) :
    (∀ e ∈ tr, ∀ i ∈ sendRecvIds e, i ∈ (p3ExtractTopology tr).nodes) ∧
    (∀ s ∈ sendsOf tr, s.sender_id ∈ (buildTopologySendersOnly tr).nodes) := by
  constructor
  · intro e he i hi
    unfold p3ExtractTopology
    apply mem_nodes_foldl_addNode
    rw [List.mem_append, List.mem_append]
    cases e with
    | send t sid o ttl pl =>
      rcases List.mem_cons.mp hi with rfl | hi'
      · exact Or.inl (Or.inl (List.mem_filterMap.mpr ⟨_, he, rfl⟩))
      · refine Or.inr (List.mem_filterMap.mpr ⟨Ev.send t sid o ttl pl, he, ?_⟩)
        simpa using hi'
    | recv t rid o ttl pl =>
      rcases List.mem_cons.mp hi with rfl | hi'
      · exact Or.inl (Or.inr (List.mem_filterMap.mpr ⟨_, he, rfl⟩))
      · refine Or.inr (List.mem_filterMap.mpr ⟨Ev.recv t rid o ttl pl, he, ?_⟩)
        simpa using hi'
    | topology a b => simp [sendRecvIds] at hi
    | stats n a b c d => simp [sendRecvIds] at hi
  · intro srow hs
    unfold buildTopologySendersOnly
    rw [← List.foldl_map (fun s : SendRow => s.sender_id) Graph.addNode]
    exact mem_nodes_foldl_addNode _ _ _ (List.mem_map.mpr ⟨srow, hs, rfl⟩)

/-- Witness for the corrected C6: the RECV-only id 5 and originator 7 are
nodes of phase3's graph. -/
theorem C6_defensive_closure_witness :
    (5 : Int) ∈ (p3ExtractTopology [Ev.recv 13 5 (some 7) none none]).nodes :=
  (C6_defensive_closure [Ev.recv 13 5 (some 7) none none]).1
    (Ev.recv 13 5 (some 7) none none) (by decide) 5 (by decide)

/-! ## C7: empty-trace behavior of the playback controllers -/

/-- C7 counterexample: on the empty trace the animated visualizer has zero
frames, yet `_toggle_play` flips `playing` to `true` — it enters Running
instead of staying Paused. -/
theorem C7_counterexample :
    avSortedEventTimes [] [] = [] ∧
    (avInitState [] []).playing = false ∧
    (togglePlay (avInitState [] [])).playing = true := by
  decide

/-- C7 (corrected). The empty-trace refusal lives in phase3's
`build_animation`, which on a trace with no SEND/RECV rows returns the bare
"No SEND/RECV events found" figure and never constructs playback state;
`AnimatedVisualizer._toggle_play` performs no emptiness check and
unconditionally flips `playing`, so toggling with zero frames enters
`playing = true`. -/
theorem C7_empty_trace (g : Graph) (st : AVState) :
    buildAnimation g [] [] = BuildAnimResult.emptyFigure ∧
    (togglePlay st).playing = !st.playing := by
  refine ⟨?_, rfl⟩
  unfold buildAnimation
  simp

/-! ## C8: no-skip advance -/

/-- When some logged timestamp lies strictly after `afterTime`,
`next_timestamp` returns the least such timestamp. -/
theorem nextTimestamp_least (timestamps : List Time) (minT afterTime t0 : Time)
    (hsorted : timestamps.Pairwise fun a b => a ≤ b)
    (ht0 : t0 ∈ timestamps) (hgt : afterTime < t0) :
    nextTimestamp timestamps minT afterTime ∈ timestamps ∧
    afterTime < nextTimestamp timestamps minT afterTime ∧
    nextTimestamp timestamps minT afterTime ≤ t0 := by
  induction timestamps with
  | nil => simp at ht0
  | cons x xs ih =>
    rw [List.pairwise_cons] at hsorted
    rw [nextTimestamp]
    by_cases hx : afterTime < x
    · rw [if_pos hx]
      refine ⟨List.mem_cons_self _ _, hx, ?_⟩
      rcases List.mem_cons.mp ht0 with rfl | h
      · exact le_refl _
      · exact hsorted.1 t0 h
    · rw [if_neg hx]
      have ht0' : t0 ∈ xs := by
        rcases List.mem_cons.mp ht0 with rfl | h
        · exact absurd hgt hx
        · exact h
      obtain ⟨h1, h2, h3⟩ := ih hsorted.2 ht0'
      exact ⟨List.mem_cons_of_mem _ h1, h2, h3⟩

/-- C8 (confirmed). No-skip advance: while Running, whenever some logged
timestamp lies strictly after the cursor and at or before the target
`current + base_dt * max(0.1, speed)`, `advance_frame` stops exactly on the
earliest such timestamp — the new cursor is a logged timestamp inside the
step window and no logged timestamp strictly after the old cursor is jumped
over. -/
theorem C8_no_skip_advance (timestamps : List Time)
    (minT maxT baseDt speedVal : Time) (st : P3State)
    (hrun : st.running = true)
    (hsorted : timestamps.Pairwise fun a b => a ≤ b)
    (hmax : ∀ t ∈ timestamps, t ≤ maxT)
    (t0 : Time) (ht0 : t0 ∈ timestamps) (hgt : st.current < t0)
    (hle : t0 ≤ st.current + p3Dt baseDt speedVal) :
    (advanceFrame timestamps minT maxT baseDt speedVal st).current ∈ timestamps ∧
    st.current < (advanceFrame timestamps minT maxT baseDt speedVal st).current ∧
    (advanceFrame timestamps minT maxT baseDt speedVal st).current ≤
      st.current + p3Dt baseDt speedVal ∧
    (∀ t ∈ timestamps, st.current < t →
      (advanceFrame timestamps minT maxT baseDt speedVal st).current ≤ t) := by
  obtain ⟨hmem, hgt', hle'⟩ :=
    nextTimestamp_least timestamps minT st.current t0 hsorted ht0 hgt
  have hwin : nextTimestamp timestamps minT st.current ≤
      st.current + p3Dt baseDt speedVal := le_trans hle' hle
  have hres : (advanceFrame timestamps minT maxT baseDt speedVal st).current =
      nextTimestamp timestamps minT st.current := by
    have hcl : st.current < nextTimestamp timestamps minT st.current ∧
        nextTimestamp timestamps minT st.current ≤
          st.current + p3Dt baseDt speedVal := ⟨hgt', hwin⟩
    simp only [advanceFrame, hrun]
    rw [if_neg (by simp), if_pos hcl, if_neg (not_lt.mpr (hmax _ hmem))]
  rw [hres]
  exact ⟨hmem, hgt', hwin, fun t ht hlt =>
    (nextTimestamp_least timestamps minT st.current t hsorted ht hlt).2.2⟩

/-- Witness for C8: timestamps `[10, 11, 20]`, cursor at 10, speed 1 — the
advance stops exactly on 11. -/
theorem C8_no_skip_advance_witness :
    ((⟨true, 10, 10⟩ : P3State).running = true ∧
     (([10, 11, 20] : List Time).Pairwise fun a b => a ≤ b) ∧
     (∀ t ∈ ([10, 11, 20] : List Time), t ≤ 20) ∧
     (11 : Time) ∈ ([10, 11, 20] : List Time) ∧
     (⟨true, 10, 10⟩ : P3State).current < 11 ∧
     (11 : Time) ≤ (⟨true, 10, 10⟩ : P3State).current + p3Dt 1 1) ∧
    ((advanceFrame [10, 11, 20] 10 20 1 1 ⟨true, 10, 10⟩).current ∈
        ([10, 11, 20] : List Time) ∧
     (⟨true, 10, 10⟩ : P3State).current <
        (advanceFrame [10, 11, 20] 10 20 1 1 ⟨true, 10, 10⟩).current ∧
     (advanceFrame [10, 11, 20] 10 20 1 1 ⟨true, 10, 10⟩).current ≤
        (⟨true, 10, 10⟩ : P3State).current + p3Dt 1 1 ∧
     (∀ t ∈ ([10, 11, 20] : List Time), (⟨true, 10, 10⟩ : P3State).current < t →
        (advanceFrame [10, 11, 20] 10 20 1 1 ⟨true, 10, 10⟩).current ≤ t)) :=
  ⟨⟨by decide, by decide, by decide, by decide, by decide, by decide⟩,
   C8_no_skip_advance [10, 11, 20] 10 20 1 1 ⟨true, 10, 10⟩ (by decide)
     (by decide) (by decide) 11 (by decide) (by decide) (by decide)⟩

/-! ## C9: self-loops in the topology graph -/

/-- A TOPOLOGY row with two distinct endpoints (or any non-TOPOLOGY row). -/
def topoRowOk : Ev → Bool
  | .topology a b => decide (a ≠ b)
  | _ => true

theorem hasSelfLoop_congr {g g' : Graph} (h : g.edges = g'.edges) :
    g.hasSelfLoop = g'.hasSelfLoop := by
  unfold Graph.hasSelfLoop
  rw [h]

theorem addNode_edges (g : Graph) (a : Int) : (g.addNode a).edges = g.edges := by
  unfold Graph.addNode
  split <;> rfl

theorem addEdge_no_self_loop {g : Graph} {a b : Int} (hab : a ≠ b)
    (h : g.hasSelfLoop = false) : (g.addEdge a b).hasSelfLoop = false := by
  simp only [Graph.addEdge]
  have hedges : ((g.addNode a).addNode b).edges = g.edges := by
    rw [addNode_edges, addNode_edges]
  split
  · rw [hasSelfLoop_congr hedges]
    exact h
  · unfold Graph.hasSelfLoop at h ⊢
    simp only [hedges]
    rw [List.any_append]
    rw [h]
    simpa using hab

theorem topoEdgesGraph_no_self_loop (tr : List Ev)
    (h : tr.all topoRowOk = true) :
    (topoEdgesGraph tr).hasSelfLoop = false := by
  unfold topoEdgesGraph
  suffices hgen : ∀ g : Graph, g.hasSelfLoop = false →
      (tr.foldl
        (fun g e => match e with
          | Ev.topology a b => g.addEdge a b
          | _ => g) g).hasSelfLoop = false by
    exact hgen Graph.empty rfl
  induction tr with
  | nil => exact fun g hg => hg
  | cons e rest ih =>
    rw [List.all_cons, Bool.and_eq_true] at h
    intro g hg
    rw [List.foldl_cons]
    refine ih h.2 _ ?_
    cases e with
    | topology a b =>
      have hab : a ≠ b := by
        have := h.1
        unfold topoRowOk at this
        simpa using this
      exact addEdge_no_self_loop hab hg
    | send t s o ttl pl => exact hg
    | recv t r o ttl pl => exact hg
    | stats n a b c d => exact hg

theorem sendNodes_edges (l : List SendRow) :
    ∀ g : Graph, (l.foldl (fun g s => Graph.addNode g s.sender_id) g).edges =
      g.edges := by
  induction l with
  | nil => exact fun g => rfl
  | cons x xs ih =>
    intro g
    rw [List.foldl_cons, ih, addNode_edges]

/-- C9 counterexample: a TOPOLOGY row listing node 3 as both endpoints
produces a self-loop edge in the graph (networkx `add_edge(3, 3)`), so the
claim as stated is false. -/
theorem C9_counterexample :
    (buildTopologySendersOnly [Ev.topology 3 3]).hasSelfLoop = true ∧
    (buildTopologySendersOnly [Ev.topology 3 3]).edges = [(3, 3)] := by
  decide

/-- C9 (corrected). The topology builders never filter self-loops: a
TOPOLOGY row with equal endpoints yields a self-loop edge (see the
counterexample).  For every trace in which each TOPOLOGY row has two
distinct endpoints, the built graph has no self-loop. -/
theorem C9_no_self_loops (tr : List Ev) (h : tr.all topoRowOk = true) :
    (buildTopologySendersOnly tr).hasSelfLoop = false := by
  unfold buildTopologySendersOnly
  rw [hasSelfLoop_congr (sendNodes_edges (sendsOf tr) (topoEdgesGraph tr))]
  exact topoEdgesGraph_no_self_loop tr h

/-- Witness for the corrected C9 at a concrete one-edge trace. -/
theorem C9_no_self_loops_witness :
    ([Ev.topology 1 2].all topoRowOk = true) ∧
    (buildTopologySendersOnly [Ev.topology 1 2]).hasSelfLoop = false :=
  ⟨by decide, C9_no_self_loops [Ev.topology 1 2] (by decide)⟩

/-! ## C10: the animated visualizer's exact-1ms correlation -/

/-- C10 (confirmed). Every `PacketAnimation` produced by
`AnimatedVisualizer._extract_packet_animations` has
`end_time = start_time + 1`, its `(sender, receiver)` pair is an edge of the
topology graph, and it comes from a SEND row and a RECV row logged exactly
1 ms later whose `ttl` equals the SEND row's `ttl` (with the code's default
of 6 substituted when the SEND row's `ttl` is absent) — an exact-1ms,
equal-ttl match, not a bounded delay window. -/
theorem C10_packet_animation_invariant (g : Graph) (sends : List SendRow)
    (recvs : List RecvRow) (a : PacketAnimation)
    (h : a ∈ extractPacketAnimations g sends recvs) :
    a.end_time = a.start_time + 1 ∧
    g.hasEdge a.sender_id a.receiver_id = true ∧
    (∃ s ∈ sends, ∃ r ∈ recvs,
      a.sender_id = s.sender_id ∧ a.receiver_id = r.receiver_id ∧
      a.start_time = s.time ∧ r.time = s.time + 1 ∧
      a.ttl = s.ttl.getD 6 ∧ r.ttl = some (s.ttl.getD 6)) := by
  unfold extractPacketAnimations at h
  have hmain := foldl_proj_mem (σ := List PacketAnimation) (β := SendRow)
    (fun l => l)
    (fun a : PacketAnimation =>
      a.end_time = a.start_time + 1 ∧
      g.hasEdge a.sender_id a.receiver_id = true ∧
      (∃ s ∈ sends, ∃ r ∈ recvs,
        a.sender_id = s.sender_id ∧ a.receiver_id = r.receiver_id ∧
        a.start_time = s.time ∧ r.time = s.time + 1 ∧
        a.ttl = s.ttl.getD 6 ∧ r.ttl = some (s.ttl.getD 6)))
    _ sends ?_ [] a h
  · rcases hmain with h0 | h0
    · simp at h0
    · exact h0
  · intro acc s hs x hx
    have hinner := foldl_proj_mem (σ := List PacketAnimation) (β := RecvRow)
      (fun l => l)
      (fun a : PacketAnimation =>
        a.end_time = a.start_time + 1 ∧
        g.hasEdge a.sender_id a.receiver_id = true ∧
        (∃ s ∈ sends, ∃ r ∈ recvs,
          a.sender_id = s.sender_id ∧ a.receiver_id = r.receiver_id ∧
          a.start_time = s.time ∧ r.time = s.time + 1 ∧
          a.ttl = s.ttl.getD 6 ∧ r.ttl = some (s.ttl.getD 6)))
      _ (recvs.filter fun r =>
          decide (r.time = s.time + 1 ∧
            r.originator_id = some (s.originator_id.getD s.sender_id) ∧
            r.ttl = some (s.ttl.getD 6)))
      ?_ acc x hx
    · exact hinner
    · intro acc2 r hr y hy
      split at hy
      · rename_i hedge
        rcases List.mem_append.mp hy with hmem | hmem
        · exact Or.inl hmem
        · rcases List.mem_singleton.mp hmem with rfl
          obtain ⟨hrmem, hcond⟩ := List.mem_filter.mp hr
          rw [decide_eq_true_eq] at hcond
          obtain ⟨ht, _, httl⟩ := hcond
          exact Or.inr ⟨rfl, hedge,
            s, hs, r, hrmem, rfl, rfl, rfl, ht, rfl, httl⟩
      · exact Or.inl hy

/-- Witness for C10 at a concrete one-hop trace. -/
theorem C10_packet_animation_invariant_witness :
    ((⟨1, 2, 1, 10, 11, 5, 1⟩ : PacketAnimation) ∈
      extractPacketAnimations (buildTopologySendersOnly [Ev.topology 1 2])
        ([⟨10, 1, some 1, some 5, some 1⟩] : List SendRow)
        ([⟨11, 2, some 1, some 5, none⟩] : List RecvRow)) ∧
    ((⟨1, 2, 1, 10, 11, 5, 1⟩ : PacketAnimation).end_time =
        (⟨1, 2, 1, 10, 11, 5, 1⟩ : PacketAnimation).start_time + 1 ∧
     (buildTopologySendersOnly [Ev.topology 1 2]).hasEdge
        (⟨1, 2, 1, 10, 11, 5, 1⟩ : PacketAnimation).sender_id
        (⟨1, 2, 1, 10, 11, 5, 1⟩ : PacketAnimation).receiver_id = true ∧
     (∃ s ∈ ([⟨10, 1, some 1, some 5, some 1⟩] : List SendRow),
       ∃ r ∈ ([⟨11, 2, some 1, some 5, none⟩] : List RecvRow),
        (⟨1, 2, 1, 10, 11, 5, 1⟩ : PacketAnimation).sender_id = s.sender_id ∧
        (⟨1, 2, 1, 10, 11, 5, 1⟩ : PacketAnimation).receiver_id = r.receiver_id ∧
        (⟨1, 2, 1, 10, 11, 5, 1⟩ : PacketAnimation).start_time = s.time ∧
        r.time = s.time + 1 ∧
        (⟨1, 2, 1, 10, 11, 5, 1⟩ : PacketAnimation).ttl = s.ttl.getD 6 ∧
        r.ttl = some (s.ttl.getD 6))) :=
  ⟨by decide,
   C10_packet_animation_invariant (buildTopologySendersOnly [Ev.topology 1 2])
     [⟨10, 1, some 1, some 5, some 1⟩] [⟨11, 2, some 1, some 5, none⟩]
     ⟨1, 2, 1, 10, 11, 5, 1⟩ (by decide)⟩

end NordicViz
